import Mathlib

/-!
Shallow embedding of the virtual-filesystem core of the website-generator
repository, together with proofs checking the claims of the design spec.

Sources embedded here:
* `src/lib/filesystem/path-utils.ts` — path algebra (`normalizePath`,
  `joinPath`, `dirname`, `isSubPath`, `validateFileName`).
* `src/unnamed/part_007` (`lib/filesystem/types.ts`) — node model, `Project`,
  `FileSystemError`.
* `src/components/preview/SandpackPreview.tsx` (`class FileSystemOperations`,
  lines 416-722) — the operation engine (`createFile`, `createDirectory`,
  `updateFile`, `renameNode`, `moveNode`, `deleteNode`, `generateDiff`).
* `src/website-generator/lib/history/history-manager.ts` — `HistoryManager`.
* `src/website-generator/components/layout/ChatPanel.tsx`
  (`handleApplyPlan`) and `src/website-generator/lib/ai/schemas.ts`
  (`validateFilePath`) — the change-plan applier.

Modelling conventions:
* JS strings are Lean `String`s; `s.length` is the number of code points
  (agrees with the JS UTF-16 length on all inputs used here).
* `Map` objects are association lists in insertion order; `set` replaces in
  place, matching JS `Map` iteration semantics.
* `generateId` (timestamp + randomness in the source, each call producing a
  fresh id) is modelled by a counter threaded through the state; every
  generated id starts with `id-` and therefore never collides with a node
  path (paths produced by `joinPath` start with the separator).
* `Date.now()` timestamps are modelled by a `time : Nat` field held in the
  state; claims under check do not depend on timestamps.
* The recursive tree walks (`updateChildPaths`, `deleteChildren`) are given
  explicit fuel modelling the JS call stack; exhausting the fuel corresponds
  to the `RangeError` stack overflow the engine would hit on a cyclic node
  graph, and is kept distinct from a thrown `FileSystemError`.
* In-place mutation of a node object fetched from the map is modelled by
  `modifyNode`, which rewrites the entry with that id; aliasing between two
  fetches of the same id is thereby preserved.
-/

/-- Separator test used by the JS split regex `/[/\\]+/`. -/
def isSepChar (c : Char) : Bool := c = '/' || c = '\\'

/-- Worker for `sepSegs`: `cur` is the reversed run collected so far. -/
def sepSegsGo (cur : List Char) : List Char → List (List Char)
  | [] => if cur.isEmpty then [] else [cur.reverse]
  | c :: cs =>
    if isSepChar c then
      if cur.isEmpty then sepSegsGo [] cs else cur.reverse :: sepSegsGo [] cs
    else sepSegsGo (c :: cur) cs

/-- Maximal runs of non-separator characters, in order.  This is exactly
`path.split(/[/\\]+/).filter(Boolean)` from `normalizePath`. -/
def sepSegs (cs : List Char) : List (List Char) := sepSegsGo [] cs

/-- Interleave `'/'` between character-list segments (JS `Array.join('/')`). -/
def joinSegs : List (List Char) → List Char
  | [] => []
  | [s] => s
  | s :: rest => s ++ '/' :: joinSegs rest

/-- Whether `b` is a prefix of `a` (JS `a.startsWith(b)` on the underlying lists). -/
def startsWithList : List Char → List Char → Bool
  | _, [] => true
  | [], _ :: _ => false
  | a :: as, b :: bs => a = b && startsWithList as bs

/-- JS `String.prototype.startsWith`. -/
def jsStartsWith (s pre : String) : Bool := startsWithList s.data pre.data

/-- Model of `path-utils.ts` `normalizePath`: split on separator runs, drop empties,
rejoin with `/`, and keep a single leading separator when the input had one
(`!path` makes the empty string normalize to the root). -/
def normalizePath (path : String) : String :=
  if path = "" then "/"
  else
    let normalized := joinSegs (sepSegs path.data)
    if jsStartsWith path "/" then String.mk ('/' :: normalized) else String.mk normalized

/-- JS `s.replace(/^[/\\]+|[/\\]+$/g, '')`: strip leading and trailing
separator runs. -/
def stripEdgeSeps (s : String) : String :=
  String.mk (((s.data.dropWhile isSepChar).reverse.dropWhile isSepChar).reverse)

/-- Model of `path-utils.ts` `joinPath(...segments)`. -/
def joinPath (segments : List String) : String :=
  let joined := String.mk (joinSegs
    (((segments.filter (· ≠ "")).map stripEdgeSeps).filter (· ≠ "") |>.map String.data))
  if jsStartsWith joined "/" then joined else String.mk ('/' :: joined.data)

/-- Index of the last occurrence of `c`, or `none` (JS `lastIndexOf` = -1). -/
def lastIdxOf (cs : List Char) (c : Char) : Option Nat :=
  match cs with
  | [] => none
  | a :: rest =>
    match lastIdxOf rest c with
    | some i => some (i + 1)
    | none => if a = c then some 0 else none

/-- Model of `path-utils.ts` `dirname`. -/
def dirname (path : String) : String :=
  let normalized := normalizePath path
  match lastIdxOf normalized.data '/' with
  | none => "/"
  | some 0 => "/"
  | some i => String.mk (normalized.data.take i)

/-- Model of `path-utils.ts` `isSubPath(parent, child)`. -/
def isSubPath (parent child : String) : Bool :=
  let normalizedParent := normalizePath parent
  let normalizedChild := normalizePath child
  if normalizedParent = "/" then jsStartsWith normalizedChild "/"
  else jsStartsWith normalizedChild (normalizedParent ++ "/")

/-- Whitespace removed by JS `String.prototype.trim` (ASCII portion; the
names reaching `validateFileName` here are ASCII). -/
def isJsWhitespace (c : Char) : Bool :=
  c = ' ' || c = '\t' || c = '\n' || c = '\r' || c = '\x0b' || c = '\x0c'

/-- Characters matched by the `validateFileName` regex `[<>:"|?*\x00-\x1f]`. -/
def isInvalidNameChar (c : Char) : Bool :=
  c = '<' || c = '>' || c = ':' || c = '"' || c = '|' || c = '?' || c = '*' ||
    c.toNat ≤ 0x1f

/-- Result record of `validateFileName` (`{ valid, error? }`). -/
structure NameCheck where
  valid : Bool
  error : Option String
  deriving Repr, DecidableEq

/-- Model of `path-utils.ts` `validateFileName`. -/
def validateFileName (name : String) : NameCheck :=
  if name = "" || (name.data.dropWhile isJsWhitespace).reverse.dropWhile isJsWhitespace = [] then
    ⟨false, some "File name cannot be empty"⟩
  else if name.data.contains '/' || name.data.contains '\\' then
    ⟨false, some "File name cannot contain path separators"⟩
  else if name.data.any isInvalidNameChar then
    ⟨false, some "File name contains invalid characters"⟩
  else if name = "." || name = ".." then
    ⟨false, some "Invalid file name"⟩
  else if name.length > 255 then
    ⟨false, some "File name is too long (max 255 characters)"⟩
  else ⟨true, none⟩

/-! ## Node model (`lib/filesystem/types.ts`, `src/unnamed/part_007`) -/

/-- The `type` tag of the `FSNode` tagged union. -/
inductive NodeType
  | file
  | directory
  deriving Repr, DecidableEq

/-- The error-code union of `FileSystemError` in `types.ts`.  Note that the
taxonomy has exactly these five members; there is no `CYCLIC_MOVE` code. -/
inductive ErrorCode
  | NOT_FOUND
  | ALREADY_EXISTS
  | INVALID_PATH
  | PERMISSION_DENIED
  | INVALID_OPERATION
  deriving Repr, DecidableEq

/-- Model of `class FileSystemError extends Error` (message + code). -/
structure FileSystemError where
  message : String
  code : ErrorCode
  deriving Repr, DecidableEq

/-- Outcome of an engine call that throws: either a thrown
`FileSystemError`, or the `RangeError` stack overflow produced by unbounded
recursion (modelled by fuel exhaustion; it is not a `FileSystemError`). -/
inductive EngineErr
  | fsError (e : FileSystemError)
  | stackOverflow
  deriving Repr, DecidableEq

/-- The `FSNode` union flattened into one record: `content`, `size`,
`binary`, `mimeType` are meaningful when `type = file`, `children` when
`type = directory` (file nodes carry `[]`, matching the absent JS field). -/
structure FSNode where
  id : String
  type : NodeType
  name : String
  path : String
  parentId : Option String
  content : String
  size : Nat
  binary : Option Bool
  mimeType : Option String
  children : List String
  createdAt : Nat
  updatedAt : Nat
  deriving Repr, DecidableEq

/-- The `nodes` JS `Map` in insertion order; keys are unique by
construction (`mapSet` replaces in place like `Map.prototype.set`). -/
abbrev NodeMap := List (String × FSNode)

/-- Model of `Map.prototype.get`. -/
def mapGet : NodeMap → String → Option FSNode
  | [], _ => none
  | (k', v) :: rest, k => if k' = k then some v else mapGet rest k

/-- Model of `Map.prototype.set`: replace in place, else append. -/
def mapSet : NodeMap → String → FSNode → NodeMap
  | [], k, v => [(k, v)]
  | (k', v') :: rest, k, v =>
    if k' = k then (k, v) :: rest else (k', v') :: mapSet rest k v

/-- Model of `Map.prototype.delete` (first occurrence; keys are unique). -/
def mapDelete : NodeMap → String → NodeMap
  | [], _ => []
  | (k', v') :: rest, k => if k' = k then rest else (k', v') :: mapDelete rest k

/-- In-place mutation of the node object with id `k` (a JS field assignment
through a reference obtained from the map). -/
def modifyNode (m : NodeMap) (k : String) (f : FSNode → FSNode) : NodeMap :=
  m.map (fun e => if e.1 = k then (e.1, f e.2) else e)

/-- The `Project` aggregate of `types.ts` (description and `lastOpenedAt`
omitted; timestamps are `Nat`). -/
structure Project where
  id : String
  name : String
  rootId : String
  nodes : NodeMap
  createdAt : Nat
  updatedAt : Nat
  deriving Repr, DecidableEq

/-- Engine state: the bound project plus the fresh-id counter modelling
`generateId` and the clock modelling `Date.now()`. -/
structure FS where
  project : Project
  nextId : Nat
  time : Nat
  deriving Repr, DecidableEq

/-- Model of `utils/id.ts` `generateId`: timestamp+random in the source (fresh on
every call); modelled by the `nextId` counter.  Generated ids never start
with the separator, hence never equal a normalized node path. -/
def generateId (n : Nat) : String := "id-" ++ Nat.repr n

/-- Replace the node map of the bound project. -/
def setNodes (fs : FS) (m : NodeMap) : FS :=
  {fs with project := {fs.project with nodes := m}}

/-- Model of `FileSystemOperations.getNodeByPath`: linear scan of `nodes.values()`
in insertion order for the normalized path. -/
def getNodeByPath (m : NodeMap) (path : String) : Option FSNode :=
  let normalized := normalizePath path
  (m.map (fun e => e.2)).find? (fun n => n.path = normalized)

/-- Model of `FileSystemOperations.updateTimestamp(node)`: bump `updatedAt` on the
live node with this id and on the project. -/
def updateTimestamp (fs : FS) (nodeId : String) : FS :=
  {fs with project :=
    {fs.project with
      nodes := modifyNode fs.project.nodes nodeId (fun n => {n with updatedAt := fs.time}),
      updatedAt := fs.time}}

/-- Shorthand for a thrown `FileSystemError`. -/
def throwFS (fs : FS) (msg : String) (code : ErrorCode) : FS × Except EngineErr FSNode :=
  (fs, Except.error (EngineErr.fsError ⟨msg, code⟩))

/-- Model of `FileSystemOperations.createFile`. -/
def createFile (fs : FS) (parentPath name content : String)
    (binary : Option Bool) (mimeType : Option String) : FS × Except EngineErr FSNode :=
  let validation := validateFileName name
  if validation.valid = false then
    throwFS fs (validation.error.getD "") ErrorCode.INVALID_PATH
  else
    match getNodeByPath fs.project.nodes parentPath with
    | none => throwFS fs ("Parent directory not found: " ++ parentPath) ErrorCode.NOT_FOUND
    | some parentNode =>
      if parentNode.type ≠ NodeType.directory then
        throwFS fs ("Parent is not a directory: " ++ parentPath) ErrorCode.INVALID_OPERATION
      else
        let filePath := joinPath [parentPath, name]
        match getNodeByPath fs.project.nodes filePath with
        | some _ => throwFS fs ("File already exists: " ++ filePath) ErrorCode.ALREADY_EXISTS
        | none =>
          let fileNode : FSNode :=
            { id := generateId fs.nextId, type := NodeType.file, name := name,
              path := filePath, parentId := some parentNode.id, content := content,
              size := content.length, binary := binary, mimeType := mimeType,
              children := [], createdAt := fs.time, updatedAt := fs.time }
          let fs1 := {setNodes fs (mapSet fs.project.nodes fileNode.id fileNode) with
            nextId := fs.nextId + 1}
          let fs2 := setNodes fs1 (modifyNode fs1.project.nodes parentNode.id
            (fun p => {p with children := p.children ++ [fileNode.id]}))
          (updateTimestamp fs2 parentNode.id, Except.ok fileNode)

/-- Model of `FileSystemOperations.createDirectory`. -/
def createDirectory (fs : FS) (parentPath name : String) : FS × Except EngineErr FSNode :=
  let validation := validateFileName name
  if validation.valid = false then
    throwFS fs (validation.error.getD "") ErrorCode.INVALID_PATH
  else
    match getNodeByPath fs.project.nodes parentPath with
    | none => throwFS fs ("Parent directory not found: " ++ parentPath) ErrorCode.NOT_FOUND
    | some parentNode =>
      if parentNode.type ≠ NodeType.directory then
        throwFS fs ("Parent is not a directory: " ++ parentPath) ErrorCode.INVALID_OPERATION
      else
        let dirPath := joinPath [parentPath, name]
        match getNodeByPath fs.project.nodes dirPath with
        | some _ => throwFS fs ("Directory already exists: " ++ dirPath) ErrorCode.ALREADY_EXISTS
        | none =>
          let dirNode : FSNode :=
            { id := generateId fs.nextId, type := NodeType.directory, name := name,
              path := dirPath, parentId := some parentNode.id, content := "",
              size := 0, binary := none, mimeType := none,
              children := [], createdAt := fs.time, updatedAt := fs.time }
          let fs1 := {setNodes fs (mapSet fs.project.nodes dirNode.id dirNode) with
            nextId := fs.nextId + 1}
          let fs2 := setNodes fs1 (modifyNode fs1.project.nodes parentNode.id
            (fun p => {p with children := p.children ++ [dirNode.id]}))
          (updateTimestamp fs2 parentNode.id, Except.ok dirNode)

/-- Model of `FileSystemOperations.updateFile`: rewrite content, recompute `size`,
touch timestamps. -/
def updateFile (fs : FS) (path content : String) : FS × Except EngineErr FSNode :=
  match getNodeByPath fs.project.nodes path with
  | none => throwFS fs ("File not found: " ++ path) ErrorCode.NOT_FOUND
  | some node =>
    if node.type ≠ NodeType.file then
      throwFS fs ("Not a file: " ++ path) ErrorCode.INVALID_OPERATION
    else
      let fs1 := setNodes fs (modifyNode fs.project.nodes node.id
        (fun n => {n with content := content, size := content.length}))
      (updateTimestamp fs1 node.id,
        Except.ok {node with content := content, size := content.length, updatedAt := fs.time})

/-- Model of `FileSystemOperations.updateChildPaths`, fuel-indexed worker.  Walks
`children` of a directory whose (already updated) path is `dirPath`,
rewriting each child's cached `path` and recursing into subdirectories.
The fuel bounds the number of walked entries, standing in for the JS call
stack: `(m, false)` is the partially rewritten map at the moment the
recursion would overflow. -/
def updateChildPathsGo (time : Nat) : Nat → NodeMap → String → List String → NodeMap × Bool
  | _, m, _, [] => (m, true)
  | 0, m, _, _ :: _ => (m, false)
  | fuel + 1, m, dirPath, childId :: rest =>
    match mapGet m childId with
    | none => updateChildPathsGo time fuel m dirPath rest
    | some child =>
      let child1 := {child with path := joinPath [dirPath, child.name], updatedAt := time}
      let m1 := mapSet m childId child1
      if child1.type = NodeType.directory then
        match updateChildPathsGo time fuel m1 child1.path child1.children with
        | (m2, true) => updateChildPathsGo time fuel m2 dirPath rest
        | (m2, false) => (m2, false)
      else updateChildPathsGo time fuel m1 dirPath rest

/-- Model of `FileSystemOperations.deleteChildren`, fuel-indexed worker: post-order
removal of every descendant id from the map. -/
def deleteChildrenGo : Nat → NodeMap → List String → NodeMap × Bool
  | _, m, [] => (m, true)
  | 0, m, _ :: _ => (m, false)
  | fuel + 1, m, childId :: rest =>
    match mapGet m childId with
    | none => deleteChildrenGo fuel (mapDelete m childId) rest
    | some child =>
      if child.type = NodeType.directory then
        match deleteChildrenGo fuel m child.children with
        | (m1, true) => deleteChildrenGo fuel (mapDelete m1 childId) rest
        | (m1, false) => (m1, false)
      else deleteChildrenGo fuel (mapDelete m childId) rest

/-- Tail of `renameNode` after all validations: apply the name/path change,
touch timestamps, and rewrite descendant paths for directories. -/
def renameCommit (fuel : Nat) (fs : FS) (node : FSNode) (newName newPath : String) :
    FS × Except EngineErr FSNode :=
  let fs1 := setNodes fs (modifyNode fs.project.nodes node.id
    (fun n => {n with name := newName, path := newPath}))
  let fs2 := updateTimestamp fs1 node.id
  let returned := {node with name := newName, path := newPath, updatedAt := fs.time}
  if node.type = NodeType.directory then
    match mapGet fs2.project.nodes node.id with
    | some dir =>
      match updateChildPathsGo fs2.time fuel fs2.project.nodes dir.path dir.children with
      | (m, true) => (setNodes fs2 m, Except.ok returned)
      | (m, false) => (setNodes fs2 m, Except.error EngineErr.stackOverflow)
    | none => (fs2, Except.ok returned)
  else (fs2, Except.ok returned)

/-- Model of `FileSystemOperations.renameNode`. -/
def renameNode (fuel : Nat) (fs : FS) (path newName : String) : FS × Except EngineErr FSNode :=
  let validation := validateFileName newName
  if validation.valid = false then
    throwFS fs (validation.error.getD "") ErrorCode.INVALID_PATH
  else
    match getNodeByPath fs.project.nodes path with
    | none => throwFS fs ("Node not found: " ++ path) ErrorCode.NOT_FOUND
    | some node =>
      match node.parentId with
      | none => throwFS fs "Cannot rename root directory" ErrorCode.INVALID_OPERATION
      | some _ =>
        let parentPath := dirname path
        let newPath := joinPath [parentPath, newName]
        match getNodeByPath fs.project.nodes newPath with
        | some existingNode =>
          if existingNode.id ≠ node.id then
            throwFS fs ("Node already exists: " ++ newPath) ErrorCode.ALREADY_EXISTS
          else renameCommit fuel fs node newName newPath
        | none => renameCommit fuel fs node newName newPath

/-- Tail of `moveNode` after all validations: detach from the old parent,
reattach under the target directory, then rewrite descendant paths.  The
statement-by-statement map updates preserve the JS aliasing between `node`,
`targetDir` and `oldParentNode` (fields are re-read from the map). -/
def moveCommit (fuel : Nat) (fs : FS) (node : FSNode)
    (oldParentId targetDirId newPath : String) : FS × Except EngineErr FSNode :=
  let fs1 :=
    match mapGet fs.project.nodes oldParentId with
    | some p =>
      if p.type = NodeType.directory then
        updateTimestamp
          (setNodes fs (modifyNode fs.project.nodes oldParentId
            (fun q => {q with children := q.children.filter (fun i => i ≠ node.id)})))
          oldParentId
      else fs
    | none => fs
  let fs2 := setNodes fs1 (modifyNode fs1.project.nodes node.id
    (fun n => {n with path := newPath, parentId := some targetDirId}))
  let fs3 := setNodes fs2 (modifyNode fs2.project.nodes targetDirId
    (fun t => {t with children := t.children ++ [node.id]}))
  let fs4 := updateTimestamp (updateTimestamp fs3 node.id) targetDirId
  let returned :=
    {node with path := newPath, parentId := some targetDirId, updatedAt := fs.time}
  if node.type = NodeType.directory then
    match mapGet fs4.project.nodes node.id with
    | some dir =>
      match updateChildPathsGo fs4.time fuel fs4.project.nodes dir.path dir.children with
      | (m, true) => (setNodes fs4 m, Except.ok returned)
      | (m, false) => (setNodes fs4 m, Except.error EngineErr.stackOverflow)
    | none => (fs4, Except.ok returned)
  else (fs4, Except.ok returned)

/-- Model of `FileSystemOperations.moveNode`.  The cyclic-move guard rejects via
`isSubPath` and throws `INVALID_OPERATION` (there is no `CYCLIC_MOVE`
code in the taxonomy). -/
def moveNode (fuel : Nat) (fs : FS) (sourcePath targetDirPath : String) :
    FS × Except EngineErr FSNode :=
  match getNodeByPath fs.project.nodes sourcePath with
  | none => throwFS fs ("Node not found: " ++ sourcePath) ErrorCode.NOT_FOUND
  | some node =>
    match node.parentId with
    | none => throwFS fs "Cannot move root directory" ErrorCode.INVALID_OPERATION
    | some oldParentId =>
      match getNodeByPath fs.project.nodes targetDirPath with
      | none =>
        throwFS fs ("Target directory not found: " ++ targetDirPath) ErrorCode.NOT_FOUND
      | some targetDir =>
        if targetDir.type ≠ NodeType.directory then
          throwFS fs ("Target is not a directory: " ++ targetDirPath)
            ErrorCode.INVALID_OPERATION
        else if isSubPath sourcePath targetDirPath then
          throwFS fs "Cannot move directory into itself" ErrorCode.INVALID_OPERATION
        else
          let newPath := joinPath [targetDirPath, node.name]
          match getNodeByPath fs.project.nodes newPath with
          | some _ => throwFS fs ("Node already exists: " ++ newPath) ErrorCode.ALREADY_EXISTS
          | none => moveCommit fuel fs node oldParentId targetDir.id newPath

/-- Model of `FileSystemOperations.deleteNode`. -/
def deleteNode (fuel : Nat) (fs : FS) (path : String) : FS × Except EngineErr Unit :=
  match getNodeByPath fs.project.nodes path with
  | none =>
    (fs, Except.error (EngineErr.fsError ⟨"Node not found: " ++ path, ErrorCode.NOT_FOUND⟩))
  | some node =>
    match node.parentId with
    | none =>
      (fs, Except.error (EngineErr.fsError
        ⟨"Cannot delete root directory", ErrorCode.INVALID_OPERATION⟩))
    | some parentId =>
      let walked :=
        if node.type = NodeType.directory then
          deleteChildrenGo fuel fs.project.nodes node.children
        else (fs.project.nodes, true)
      match walked with
      | (m, false) => (setNodes fs m, Except.error EngineErr.stackOverflow)
      | (m1, true) =>
        let fs1 := setNodes fs m1
        let fs2 :=
          match mapGet m1 parentId with
          | some p =>
            if p.type = NodeType.directory then
              updateTimestamp
                (setNodes fs1 (modifyNode m1 parentId
                  (fun q => {q with children := q.children.filter (fun i => i ≠ node.id)})))
                parentId
            else fs1
          | none => fs1
        (setNodes fs2 (mapDelete fs2.project.nodes node.id), Except.ok ())

/-- The `type` tag of the filesystem `FileChange` union (`types.ts`). -/
inductive ChangeType
  | create
  | update
  | delete
  | rename
  | move
  deriving Repr, DecidableEq

/-- The `FileChange` record of `types.ts` (optional fields as `Option`). -/
structure FileChange where
  type : ChangeType
  nodeId : String
  oldPath : Option String
  newPath : Option String
  oldContent : Option String
  newContent : Option String
  oldParentId : Option String
  newParentId : Option String
  deriving Repr, DecidableEq

/-- Model of `FileSystemOperations.generateDiff`: id-based set comparison of two
snapshots; a path mismatch wins over a content mismatch (move suppresses
update), and creates are appended after the first pass. -/
def generateDiff (oldNodes newNodes : NodeMap) : List FileChange :=
  let part1 := oldNodes.filterMap (fun e =>
    match mapGet newNodes e.1 with
    | none => some ⟨ChangeType.delete, e.1, some e.2.path, none, none, none, none, none⟩
    | some newNode =>
      if e.2.path ≠ newNode.path then
        some ⟨ChangeType.move, e.1, some e.2.path, some newNode.path, none, none,
          e.2.parentId, newNode.parentId⟩
      else if e.2.type = NodeType.file ∧ newNode.type = NodeType.file ∧
          e.2.content ≠ newNode.content then
        some ⟨ChangeType.update, e.1, none, none, some e.2.content, some newNode.content,
          none, none⟩
      else none)
  let part2 := newNodes.filterMap (fun e =>
    if (mapGet oldNodes e.1).isNone then
      some ⟨ChangeType.create, e.1, none, some e.2.path, none,
        (if e.2.type = NodeType.file then some e.2.content else none), none, none⟩
    else none)
  part1 ++ part2

/-! ## Change-plan applier (`ChatPanel.handleApplyPlan`, `ai/schemas.ts`) -/

/-- Whether `sub` occurs as a contiguous sublist (JS `String.prototype.includes`). -/
def hasSubList (sub : List Char) : List Char → Bool
  | [] => sub.isEmpty
  | c :: rest => startsWithList (c :: rest) sub || hasSubList sub rest

/-- Model of `ai/schemas.ts` `validateFilePath` (the `FileChangeSchema` path refine):
allow-listed top-level directories, no `..`, no `//`, length in (0, 500). -/
def validateFilePath (path : String) : Bool :=
  (["/app", "/components", "/public", "/styles", "/lib"].any
    (fun d => jsStartsWith path d)) &&
  !(hasSubList "..".data path.data) &&
  !(hasSubList "//".data path.data) &&
  decide (path.length > 0) &&
  decide (path.length < 500)

/-- The `type` tag of the AI-layer `FileChange` intents (`lib/ai/types.ts`). -/
inductive AIChangeType
  | create
  | update
  | delete
  deriving Repr, DecidableEq

/-- A change-plan item (`lib/ai/types.ts` `FileChange`): `{type, path, content?}`. -/
structure AIFileChange where
  type : AIChangeType
  path : String
  content : Option String
  deriving Repr, DecidableEq

/-- JS `String.prototype.split` on a single character, keeping empties. -/
def splitOnCharGo (sep : Char) (cur : List Char) : List Char → List String
  | [] => [String.mk cur.reverse]
  | x :: xs =>
    if x = sep then String.mk cur.reverse :: splitOnCharGo sep [] xs
    else splitOnCharGo sep (x :: cur) xs

/-- Model of `path.split('/')` from the applier's create branch. -/
def jsSplitOnSlash (s : String) : List String := splitOnCharGo '/' [] s.data

/-- The applier's create-on-missing branch: split the path into parent and
filename (`pathParts.pop()`, `pathParts.join('/') || '/'`) and call
`createFile`, swallowing any thrown error. -/
def applyCreateNew (fs : FS) (hasChanges : Bool) (path content : String) : FS × Bool :=
  let pathParts := jsSplitOnSlash path
  let filename := pathParts.getLast?
  let joined := String.intercalate "/" pathParts.dropLast
  let parentPath := if joined = "" then "/" else joined
  match filename with
  | some f =>
    if f ≠ "" then
      match createFile fs parentPath f content none none with
      | (fs1, Except.ok _) => (fs1, true)
      | (fs1, Except.error _) => (fs1, hasChanges)
    else (fs, hasChanges)
  | none => (fs, hasChanges)

/-- One iteration of the `handleApplyPlan` loop over `plan.changes`.  Note
two behaviours taken verbatim from the source: update (and create-on-
existing-file) assigns `content`/`updatedAt` directly on the node without
recomputing `size`, and delete passes `nodeToDelete.id` — not its path —
to `deleteNode`. -/
def applyChange (fuel : Nat) (acc : FS × Bool) (change : AIFileChange) : FS × Bool :=
  let fs := acc.1
  let hasChanges := acc.2
  if validateFilePath change.path = false then acc
  else
    match change.type with
    | AIChangeType.create =>
      match change.content with
      | none => acc
      | some content =>
        match getNodeByPath fs.project.nodes change.path with
        | some existingNode =>
          if existingNode.type = NodeType.file then
            (setNodes fs (modifyNode fs.project.nodes existingNode.id
              (fun n => {n with content := content, updatedAt := fs.time})), true)
          else applyCreateNew fs hasChanges change.path content
        | none => applyCreateNew fs hasChanges change.path content
    | AIChangeType.update =>
      match getNodeByPath fs.project.nodes change.path with
      | some existingNode =>
        match change.content with
        | some content =>
          if existingNode.type = NodeType.file then
            (setNodes fs (modifyNode fs.project.nodes existingNode.id
              (fun n => {n with content := content, updatedAt := fs.time})), true)
          else acc
        | none => acc
      | none => acc
    | AIChangeType.delete =>
      match getNodeByPath fs.project.nodes change.path with
      | some nodeToDelete =>
        match deleteNode fuel fs nodeToDelete.id with
        | (fs1, Except.ok _) => (fs1, true)
        | (fs1, Except.error _) => (fs1, hasChanges)
      | none => acc

/-- Model of `ChatPanel.handleApplyPlan`: fold the items, then touch the project's
`updatedAt` only when something succeeded. -/
def applyPlan (fuel : Nat) (fs : FS) (changes : List AIFileChange) : FS × Bool :=
  let res := changes.foldl (applyChange fuel) (fs, false)
  if res.2 then
    ({res.1 with project := {res.1.project with updatedAt := res.1.time}}, true)
  else res

/-! ## History manager (`lib/history/history-manager.ts`) -/

/-- One history entry (the source also stores an id and a timestamp, which
no claim depends on). -/
structure HistoryEntry where
  description : String
  changes : List FileChange
  beforeSnapshot : NodeMap
  afterSnapshot : NodeMap
  deriving Repr, DecidableEq

/-- Model of the `HistoryManager` state: the log, the cursor (`-1` = before the first
entry), and the bound project state. -/
structure HM where
  history : List HistoryEntry
  currentIndex : Int
  fs : FS
  deriving Repr, DecidableEq

/-- Constant `maxHistorySize` from the source. -/
def maxHistorySize : Nat := 50

/-- Model of `HistoryManager.cloneNodes` applied to one node: spread plus fresh
`Date`s (same instants) and a copied `children` array for directories;
file nodes get `children: undefined`, i.e. `[]` in the flattened record. -/
def cloneNode (n : FSNode) : FSNode :=
  {n with children := if n.type = NodeType.directory then n.children else []}

/-- Model of `HistoryManager.cloneNodes`: per-node deep copy, insertion order kept. -/
def cloneNodes (m : NodeMap) : NodeMap := m.map (fun e => (e.1, cloneNode e.2))

/-- Replace the node map and touch the project's `updatedAt` (the
`undo`/`redo`/`jumpToHistoryPoint` restore step). -/
def setNodesTouch (fs : FS) (m : NodeMap) : FS :=
  {fs with project := {fs.project with nodes := m, updatedAt := fs.time}}

/-- Model of `HistoryManager.recordChange`: snapshot, run the mutations, snapshot,
diff; discard silently when the diff is empty, otherwise truncate the redo
branch, append, and evict the oldest entry beyond `maxHistorySize`. -/
def recordChange (hm : HM) (description : String) (beforeAction action : FS → FS) : HM :=
  let beforeSnapshot := cloneNodes hm.fs.project.nodes
  let fs1 := action (beforeAction hm.fs)
  let afterSnapshot := cloneNodes fs1.project.nodes
  let changes := generateDiff beforeSnapshot afterSnapshot
  if changes = [] then {hm with fs := fs1}
  else
    let entry : HistoryEntry := ⟨description, changes, beforeSnapshot, afterSnapshot⟩
    let idx1 := hm.currentIndex + 1
    let hist1 := hm.history.take idx1.toNat ++ [entry]
    if hist1.length > maxHistorySize then
      ⟨hist1.drop 1, idx1 - 1, fs1⟩
    else ⟨hist1, idx1, fs1⟩

/-- Model of `HistoryManager.undo`.  (When the cursor is in range the entry always
exists; the `none` fallback marks the out-of-range read that JS `undefined`
would crash on, and is unreachable from recorded states.) -/
def undo (hm : HM) : HM × Bool :=
  if hm.currentIndex < 0 then (hm, false)
  else
    match hm.history.get? hm.currentIndex.toNat with
    | none => (hm, false)
    | some entry =>
      (⟨hm.history, hm.currentIndex - 1,
        setNodesTouch hm.fs (cloneNodes entry.beforeSnapshot)⟩, true)

/-- Model of `HistoryManager.redo`. -/
def redo (hm : HM) : HM × Bool :=
  if hm.currentIndex ≥ (hm.history.length : Int) - 1 then (hm, false)
  else
    match hm.history.get? (hm.currentIndex + 1).toNat with
    | none => (hm, false)
    | some entry =>
      (⟨hm.history, hm.currentIndex + 1,
        setNodesTouch hm.fs (cloneNodes entry.afterSnapshot)⟩, true)

/-- Model of `HistoryManager.jumpToHistoryPoint`.  Note the early `index ===
currentIndex` return, and that the `index === -1` branch installs a brand
new empty `Map` as the node map. -/
def jumpToHistoryPoint (hm : HM) (index : Int) : HM × Bool :=
  if index < -1 ∨ index ≥ (hm.history.length : Int) then (hm, false)
  else if index = hm.currentIndex then (hm, true)
  else if index = -1 then (⟨hm.history, -1, setNodes hm.fs []⟩, true)
  else
    match hm.history.get? index.toNat with
    | none => (hm, true)
    | some entry =>
      (⟨hm.history, index, setNodesTouch hm.fs (cloneNodes entry.afterSnapshot)⟩, true)

/-- Call `undo` repeatedly until it returns false (bounded by fuel, which
the claims instantiate above the log length); returns the final state and
the number of undos that returned true. -/
def undoAll : Nat → HM → HM × Nat
  | 0, hm => (hm, 0)
  | f + 1, hm =>
    match undo hm with
    | (hm1, true) =>
      let r := undoAll f hm1
      (r.1, r.2 + 1)
    | (hm1, false) => (hm1, 0)

/-- Call `redo` the given number of times, keeping only the states. -/
def redoTimes : Nat → HM → HM
  | 0, hm => hm
  | n + 1, hm => redoTimes n (redo hm).1

/-! ## Concrete states used by the scenario claims -/

/-- A pristine root directory node (`path` is the separator, no parent). -/
def rootNode : FSNode where
  id := "root"
  type := NodeType.directory
  name := ""
  path := "/"
  parentId := none
  content := ""
  size := 0
  binary := none
  mimeType := none
  children := []
  createdAt := 0
  updatedAt := 0

/-- A project holding only the root directory. -/
def baseProject : Project where
  id := "p"
  name := "proj"
  rootId := "root"
  nodes := [("root", rootNode)]
  createdAt := 0
  updatedAt := 0

/-- Engine state bound to the root-only project. -/
def baseFS : FS where
  project := baseProject
  nextId := 0
  time := 7

/-- Root plus an empty directory `/a` (start state of the self-move run). -/
def selfMoveFS : FS := (createDirectory baseFS "/" "a").1

/-- Root, `/a`, and `/a/b` nested under it. -/
def subtreeFS : FS := (createDirectory selfMoveFS "/a" "b").1

/-- Root, directory `/app`, and file `/app/x.txt` with content `"x"`
(`/app` is on the applier's allow list). -/
def appFS : FS := (createFile (createDirectory baseFS "/" "app").1 "/app" "x.txt" "x" none none).1

/-- Root, `/src`, `/src/a.txt`, after renaming `/src` to `/lib`. -/
def renameScenarioFS : FS :=
  (renameNode 10 (createFile (createDirectory baseFS "/" "src").1 "/src" "a.txt" "x" none none).1
    "/src" "lib").1

/-! ## Map helper lemmas -/

theorem mapGet_mapSet_self (m : NodeMap) (k : String) (v : FSNode) :
    mapGet (mapSet m k v) k = some v := by
  induction m with
  | nil => simp [mapSet, mapGet]
  | cons e rest ih =>
    by_cases h : e.1 = k
    · simp [mapSet, mapGet, h]
    · simp [mapSet, mapGet, h, ih]

/-! ## C8 — rename rewrites descendant paths while preserving identity -/

/-- C8: starting from the root-only project, `createDirectory("/", "src")`,
`createFile("/src", "a.txt", "x")`, `rename("/src", "lib")`: resolving
`/lib/a.txt` returns the same node id that `createFile` returned with
`path = "/lib/a.txt"`, and resolving `/src/a.txt` returns none.  Confirms
the claim. -/
theorem rename_rewrites_paths_preserving_identity :
    ∃ created : FSNode,
      (createFile (createDirectory baseFS "/" "src").1 "/src" "a.txt" "x" none none).2 =
        Except.ok created ∧
      (∃ resolved : FSNode,
        getNodeByPath renameScenarioFS.project.nodes "/lib/a.txt" = some resolved ∧
        resolved.id = created.id ∧ resolved.path = "/lib/a.txt") ∧
      getNodeByPath renameScenarioFS.project.nodes "/src/a.txt" = none := by
  exact ⟨_, rfl, ⟨_, rfl, rfl, rfl⟩, rfl⟩

/-! ## C1 — the applier's delete branch never deletes -/

/-- C1 (code bug): `handleApplyPlan` resolves the delete item's path to
`nodeToDelete` but then calls `deleteNode(nodeToDelete.id)`, passing the
node **id** where `deleteNode` expects a **path**; the id never matches a
node path, the engine throws `NOT_FOUND` into the swallowed catch, and the
node survives the batch.  Here the path `/app/x.txt` resolves before the
batch, the batch reports no change, and the node is still resolvable (same
id) afterwards — contradicting the claim that the node is absent. -/
theorem applier_delete_leaves_node_in_place :
    ∃ target : FSNode,
      getNodeByPath appFS.project.nodes "/app/x.txt" = some target ∧
      (applyPlan 10 appFS [⟨AIChangeType.delete, "/app/x.txt", none⟩]).2 = false ∧
      (∃ survivor : FSNode,
        getNodeByPath
          (applyPlan 10 appFS [⟨AIChangeType.delete, "/app/x.txt", none⟩]).1.project.nodes
          "/app/x.txt" = some survivor ∧ survivor.id = target.id) := by
  exact ⟨_, rfl, rfl, _, rfl, rfl⟩

/-! ## C3 — the applier's update branch leaves `size` stale -/

/-- C3 (code bug): the applier's update branch assigns
`existingNode.content = change.content` directly instead of going through
`updateFileContent`, so `size` is not recomputed.  Updating `/app/x.txt`
(size 1) to `"hello"` leaves `size = 1` while the new content has length
5 — contradicting the claim that `size` equals the length of the new
content after an applied update item. -/
theorem applier_update_leaves_size_stale :
    ∃ updated : FSNode,
      getNodeByPath
        (applyPlan 10 appFS [⟨AIChangeType.update, "/app/x.txt", some "hello"⟩]).1.project.nodes
        "/app/x.txt" = some updated ∧
      updated.content = "hello" ∧ updated.size = 1 ∧ ("hello" : String).length = 5 := by
  exact ⟨_, rfl, rfl, rfl, rfl⟩

/-! ## C4 — cyclic move is rejected, but with `INVALID_OPERATION` -/

/-- C4 counterexample: `move("/a", "/a/b")` with `/a/b` nested under `/a`
throws the `FileSystemError` whose code is `INVALID_OPERATION` — not a
distinct `CyclicMove` code; indeed the `ErrorCode` taxonomy of `types.ts`
has exactly the five members enumerated here and no `CYCLIC_MOVE` member,
refuting the claim that a separate `CyclicMove` error code exists and is
raised. -/
theorem move_into_subtree_error_is_invalid_operation :
    (moveNode 10 subtreeFS "/a" "/a/b").2 =
      Except.error (EngineErr.fsError
        ⟨"Cannot move directory into itself", ErrorCode.INVALID_OPERATION⟩) ∧
    (moveNode 10 subtreeFS "/a" "/a/b").1 = subtreeFS ∧
    ∀ c : ErrorCode, c = ErrorCode.NOT_FOUND ∨ c = ErrorCode.ALREADY_EXISTS ∨
      c = ErrorCode.INVALID_PATH ∨ c = ErrorCode.PERMISSION_DENIED ∨
      c = ErrorCode.INVALID_OPERATION := by
  refine ⟨rfl, rfl, ?_⟩
  intro c
  cases c <;> simp

/-! ## C2 — `move("/a", "/a")` corrupts the tree (invariants broken) -/

/-- On a node that lists itself among its own children, the recursive
`updateChildPaths` walk never terminates: for every stack budget it ends in
the overflow outcome, and the node still lists itself (`parentId`,
`children` untouched by the walk, which only rewrites `path`/`updatedAt`). -/
theorem updateChildPathsGo_cycle (t : Nat) (a : String) :
    ∀ (fuel : Nat) (m : NodeMap) (p : String) (n : FSNode),
      mapGet m a = some n → n.id = a → n.type = NodeType.directory → n.children = [a] →
      n.parentId = some a →
      ∃ m' n', updateChildPathsGo t fuel m p [a] = (m', false) ∧
        mapGet m' a = some n' ∧ n'.id = a ∧ n'.type = NodeType.directory ∧
        n'.children = [a] ∧ n'.parentId = some a := by
  intro fuel
  induction fuel with
  | zero =>
    intro m p n h1 h0 h2 h3 h4
    exact ⟨m, n, rfl, h1, h0, h2, h3, h4⟩
  | succ f ih =>
    intro m p n h1 h0 h2 h3 h4
    obtain ⟨nid, nty, nn, np, npar, nc, ns, nb, nm, nch, nca, nua⟩ := n
    simp only at h0 h2 h3 h4
    subst h0 h2 h3 h4
    obtain ⟨m', n', hgo, hget, hid, hty, hch, hpid⟩ :=
      ih (mapSet m nid ⟨nid, NodeType.directory, nn, joinPath [p, nn], some nid, nc, ns, nb,
          nm, [nid], nca, t⟩)
        (joinPath [p, nn])
        ⟨nid, NodeType.directory, nn, joinPath [p, nn], some nid, nc, ns, nb, nm, [nid], nca, t⟩
        (mapGet_mapSet_self _ _ _) rfl rfl rfl rfl
    refine ⟨m', n', ?_, hget, hid, hty, hch, hpid⟩
    simp only [updateChildPathsGo, h1]
    rw [hgo]
    simp

/-- C2 (code bug): on the project holding only the root and the empty
directory `/a`, `move("/a", "/a")` — source path and target directory path
denoting the same directory — slips past the `isSubPath` guard (which is
strict), detaches `/a` from the root, sets its `parentId` to its own id and
pushes its id onto its own children list, and then `updateChildPaths`
recurses through that self-cycle until the stack overflows, for every stack
budget.  The call therefore never succeeds, and the state it leaves behind
violates invariants 2 and 6 (a directory that is its own parent and its own
child).  This refutes the claim that invariants 1-6 survive the
`move("/a", "/a")` case; the spec (and the guard's own error message) is
clearly the intent and the strict guard the slip. -/
theorem moveNode_self_move_corrupts_and_overflows (fuel : Nat) :
    (moveNode fuel selfMoveFS "/a" "/a").2 = Except.error EngineErr.stackOverflow ∧
    ∃ n : FSNode,
      mapGet (moveNode fuel selfMoveFS "/a" "/a").1.project.nodes "id-0" = some n ∧
      n.id = "id-0" ∧ n.parentId = some n.id ∧ n.children = [n.id] ∧
      n.type = NodeType.directory := by
  obtain ⟨m', n', hgo, hget, hid, hty, hch, hpid⟩ :=
    updateChildPathsGo_cycle 7 "id-0" fuel
      ((moveNode 0 selfMoveFS "/a" "/a").1.project.nodes) "/a/a"
      ⟨"id-0", NodeType.directory, "a", "/a/a", some "id-0", "", 0, none, none, ["id-0"], 7, 7⟩
      rfl rfl rfl rfl rfl
  have hred : moveNode fuel selfMoveFS "/a" "/a" =
      (match updateChildPathsGo 7 fuel
          ((moveNode 0 selfMoveFS "/a" "/a").1.project.nodes) "/a/a" ["id-0"] with
       | (m, true) =>
         (setNodes (moveNode 0 selfMoveFS "/a" "/a").1 m,
           Except.ok ⟨"id-0", NodeType.directory, "a", "/a/a", some "id-0", "", 0, none, none,
             [], 7, 7⟩)
       | (m, false) =>
         (setNodes (moveNode 0 selfMoveFS "/a" "/a").1 m,
           Except.error EngineErr.stackOverflow)) := rfl
  rw [hred, hgo]
  refine ⟨rfl, n', ?_, hid, ?_, ?_, hty⟩
  · simpa [setNodes] using hget
  · rw [hid]; exact hpid
  · rw [hid]; exact hch

/-- C4 amended: whenever the source path resolves to a non-root node, the
target path resolves to a directory, and `isSubPath(source, target)` holds
(target strictly nested under source, e.g. `move("/a", "/a/b")`), `moveNode`
fails with the `FileSystemError` carrying code `INVALID_OPERATION` and
message `"Cannot move directory into itself"`, leaving the state unchanged;
the taxonomy has no distinct `CyclicMove` code. -/
theorem move_into_own_subtree_rejected (fuel : Nat) (fs : FS)
    (sourcePath targetDirPath : String) (node targetDir : FSNode) (pid : String)
    (h1 : getNodeByPath fs.project.nodes sourcePath = some node)
    (h2 : node.parentId = some pid)
    (h3 : getNodeByPath fs.project.nodes targetDirPath = some targetDir)
    (h4 : targetDir.type = NodeType.directory)
    (h5 : isSubPath sourcePath targetDirPath = true) :
    moveNode fuel fs sourcePath targetDirPath =
      (fs, Except.error (EngineErr.fsError
        ⟨"Cannot move directory into itself", ErrorCode.INVALID_OPERATION⟩)) := by
  simp only [moveNode, h1, h2, h3, h4, h5, throwFS]
  simp

/-- Witness for the amended C4 theorem at `move("/a", "/a/b")` on the
concrete project holding `/a` and `/a/b`. -/
theorem move_into_own_subtree_rejected_witness :
    isSubPath "/a" "/a/b" = true ∧
    moveNode 10 subtreeFS "/a" "/a/b" =
      (subtreeFS, Except.error (EngineErr.fsError
        ⟨"Cannot move directory into itself", ErrorCode.INVALID_OPERATION⟩)) :=
  ⟨rfl, move_into_own_subtree_rejected 10 subtreeFS "/a" "/a/b"
    ⟨"id-0", NodeType.directory, "a", "/a", some "root", "", 0, none, none, ["id-1"], 7, 7⟩
    ⟨"id-1", NodeType.directory, "b", "/a/b", some "id-0", "", 0, none, none, [], 7, 7⟩
    "root" rfl rfl rfl rfl rfl⟩

/-! ## C10 — `jumpToHistoryPoint(-1)` -/

/-- A history manager that has recorded one change (creating `/app/b.txt`)
on top of `appFS`. -/
def hmRecorded : HM :=
  recordChange ⟨[], -1, appFS⟩ "create b" (fun fs => fs)
    (fun fs => (createFile fs "/app" "b.txt" "z" none none).1)

/-- The manager `hmRecorded` after one `undo`: the log is still non-empty but the
cursor is already at `-1`. -/
def hmUndone : HM := (undo hmRecorded).1

/-- C10 counterexample: `hmUndone` has a non-empty log, yet
`jumpToHistoryPoint(-1)` returns true *without* replacing the node map —
the early `index === currentIndex` return fires because the cursor is
already `-1` — so the root is still resolvable by id and by path,
contradicting the claim that the map is left completely empty for every
manager with a non-empty log. -/
theorem jumpToHistoryPoint_skips_reset_at_cursor :
    hmUndone.history.length = 1 ∧
    (jumpToHistoryPoint hmUndone (-1)).2 = true ∧
    (∃ r, mapGet (jumpToHistoryPoint hmUndone (-1)).1.fs.project.nodes
        (jumpToHistoryPoint hmUndone (-1)).1.fs.project.rootId = some r) ∧
    (∃ r, getNodeByPath (jumpToHistoryPoint hmUndone (-1)).1.fs.project.nodes "/" = some r) :=
  ⟨rfl, rfl, ⟨_, rfl⟩, ⟨_, rfl⟩⟩

/-- C10 amended: when the cursor is not already `-1` (i.e. `currentIndex ≥
0`), `jumpToHistoryPoint(-1)` returns true and installs a completely empty
node map — every id and path lookup returns none, `updateFileContent`,
`move` and `delete` fail with `NOT_FOUND` on any argument, and `createFile`,
`createDirectory` and `rename` fail with `NOT_FOUND` whenever the supplied
name passes validation (with an invalid name they fail earlier with
`INVALID_PATH`).  When the cursor is already `-1` the call returns true and
leaves the manager unchanged. -/
theorem jumpToHistoryPoint_minus_one (hm : HM) :
    (0 ≤ hm.currentIndex →
      jumpToHistoryPoint hm (-1) = (⟨hm.history, -1, setNodes hm.fs []⟩, true) ∧
      (∀ k, mapGet (setNodes hm.fs []).project.nodes k = none) ∧
      (∀ p, getNodeByPath (setNodes hm.fs []).project.nodes p = none) ∧
      (∀ p c, (updateFile (setNodes hm.fs []) p c).2 =
        Except.error (EngineErr.fsError ⟨"File not found: " ++ p, ErrorCode.NOT_FOUND⟩)) ∧
      (∀ fuel s u, (moveNode fuel (setNodes hm.fs []) s u).2 =
        Except.error (EngineErr.fsError ⟨"Node not found: " ++ s, ErrorCode.NOT_FOUND⟩)) ∧
      (∀ fuel p, (deleteNode fuel (setNodes hm.fs []) p).2 =
        Except.error (EngineErr.fsError ⟨"Node not found: " ++ p, ErrorCode.NOT_FOUND⟩)) ∧
      (∀ pp n c b mt, (validateFileName n).valid = true →
        (createFile (setNodes hm.fs []) pp n c b mt).2 =
          Except.error (EngineErr.fsError
            ⟨"Parent directory not found: " ++ pp, ErrorCode.NOT_FOUND⟩)) ∧
      (∀ pp n, (validateFileName n).valid = true →
        (createDirectory (setNodes hm.fs []) pp n).2 =
          Except.error (EngineErr.fsError
            ⟨"Parent directory not found: " ++ pp, ErrorCode.NOT_FOUND⟩)) ∧
      (∀ fuel p nn, (validateFileName nn).valid = true →
        (renameNode fuel (setNodes hm.fs []) p nn).2 =
          Except.error (EngineErr.fsError ⟨"Node not found: " ++ p, ErrorCode.NOT_FOUND⟩))) ∧
    (hm.currentIndex = -1 → jumpToHistoryPoint hm (-1) = (hm, true)) := by
  constructor
  · intro hci
    have hb : ¬((-1 : Int) < -1 ∨ (-1 : Int) ≥ (hm.history.length : Int)) := by omega
    have hne : ¬((-1 : Int) = hm.currentIndex) := by omega
    refine ⟨?_, fun k => rfl, fun p => rfl, fun p c => rfl, fun fuel s u => rfl,
      fun fuel p => rfl, ?_, ?_, ?_⟩
    · simp only [jumpToHistoryPoint, hb, hne]
      simp
    · intro pp n c b mt hv
      simp [createFile, hv, getNodeByPath, throwFS, setNodes]
    · intro pp n hv
      simp [createDirectory, hv, getNodeByPath, throwFS, setNodes]
    · intro fuel p nn hv
      simp [renameNode, hv, getNodeByPath, throwFS, setNodes]
  · intro hci
    have hb : ¬((-1 : Int) < -1 ∨ (-1 : Int) ≥ (hm.history.length : Int)) := by omega
    simp [jumpToHistoryPoint, hb, hci]
    omega

/-- Witness for the amended C10 theorem: a manager with one entry and
cursor `0` jumps to `-1` and empties the map. -/
theorem jumpToHistoryPoint_minus_one_witness :
    (0 : Int) ≤ hmRecorded.currentIndex ∧
    jumpToHistoryPoint hmRecorded (-1) =
      (⟨hmRecorded.history, -1, setNodes hmRecorded.fs []⟩, true) ∧
    (∀ k, mapGet (setNodes hmRecorded.fs []).project.nodes k = none) :=
  ⟨by decide, ((jumpToHistoryPoint_minus_one hmRecorded).1 (by decide)).1,
    ((jumpToHistoryPoint_minus_one hmRecorded).1 (by decide)).2.1⟩

/-! ## C6 - atomicity on thrown FileSystemError -/

/-- Once `renameNode` reaches its commit tail, no `FileSystemError` can
be thrown any more (only success or a stack overflow). -/
theorem renameCommit_no_fserror (fuel : Nat) (fs : FS) (node : FSNode) (nn np : String)
    (e : FileSystemError) :
    (renameCommit fuel fs node nn np).2 ≠ Except.error (EngineErr.fsError e) := by
  unfold renameCommit
  dsimp only
  repeat' split
  all_goals simp

/-- Once `moveNode` reaches its commit tail, no `FileSystemError` can be
thrown any more (only success or a stack overflow). -/
theorem moveCommit_no_fserror (fuel : Nat) (fs : FS) (node : FSNode) (op tid np : String)
    (e : FileSystemError) :
    (moveCommit fuel fs node op tid np).2 ≠ Except.error (EngineErr.fsError e) := by
  unfold moveCommit
  dsimp only
  repeat' split
  all_goals simp

/-- C6: every public engine call that throws a `FileSystemError` leaves the
whole engine state (project, node map, every node, all parent/children
links) exactly as it was: all validation happens before any mutation.  The
fuel-exhaustion outcome (`stackOverflow`, a JS `RangeError`, not a
`FileSystemError`) is the only failure that can leave mutations behind. -/
theorem engine_atomic_on_fs_error :
    (∀ (fs : FS) (pp n c : String) (b : Option Bool) (mt : Option String) (fs' : FS)
      (r : Except EngineErr FSNode) (e : FileSystemError),
      createFile fs pp n c b mt = (fs', r) →
      r = Except.error (EngineErr.fsError e) → fs' = fs) ∧
    (∀ (fs : FS) (pp n : String) (fs' : FS) (r : Except EngineErr FSNode)
      (e : FileSystemError),
      createDirectory fs pp n = (fs', r) →
      r = Except.error (EngineErr.fsError e) → fs' = fs) ∧
    (∀ (fs : FS) (p c : String) (fs' : FS) (r : Except EngineErr FSNode)
      (e : FileSystemError),
      updateFile fs p c = (fs', r) →
      r = Except.error (EngineErr.fsError e) → fs' = fs) ∧
    (∀ (fuel : Nat) (fs : FS) (p nn : String) (fs' : FS) (r : Except EngineErr FSNode)
      (e : FileSystemError),
      renameNode fuel fs p nn = (fs', r) →
      r = Except.error (EngineErr.fsError e) → fs' = fs) ∧
    (∀ (fuel : Nat) (fs : FS) (s u : String) (fs' : FS) (r : Except EngineErr FSNode)
      (e : FileSystemError),
      moveNode fuel fs s u = (fs', r) →
      r = Except.error (EngineErr.fsError e) → fs' = fs) ∧
    (∀ (fuel : Nat) (fs : FS) (p : String) (fs' : FS) (r : Except EngineErr Unit)
      (e : FileSystemError),
      deleteNode fuel fs p = (fs', r) →
      r = Except.error (EngineErr.fsError e) → fs' = fs) := by
  refine ⟨?_, ?_, ?_, ?_, ?_, ?_⟩
  · intro fs pp n c b mt fs' r e hc he
    subst he
    unfold createFile throwFS at hc
    dsimp only at hc
    repeat' split at hc
    all_goals simp only [Prod.mk.injEq] at hc
    all_goals first
      | exact hc.1.symm
      | exact absurd hc.2 (by simp)
  · intro fs pp n fs' r e hc he
    subst he
    unfold createDirectory throwFS at hc
    dsimp only at hc
    repeat' split at hc
    all_goals simp only [Prod.mk.injEq] at hc
    all_goals first
      | exact hc.1.symm
      | exact absurd hc.2 (by simp)
  · intro fs p c fs' r e hc he
    subst he
    unfold updateFile throwFS at hc
    dsimp only at hc
    repeat' split at hc
    all_goals simp only [Prod.mk.injEq] at hc
    all_goals first
      | exact hc.1.symm
      | exact absurd hc.2 (by simp)
  · intro fuel fs p nn fs' r e hc he
    subst he
    unfold renameNode throwFS at hc
    dsimp only at hc
    repeat' split at hc
    all_goals first
      | exact absurd (congrArg Prod.snd hc) (renameCommit_no_fserror _ _ _ _ _ _)
      | (simp only [Prod.mk.injEq] at hc
         first
          | exact hc.1.symm
          | exact absurd hc.2 (by simp))
  · intro fuel fs s u fs' r e hc he
    subst he
    unfold moveNode throwFS at hc
    dsimp only at hc
    repeat' split at hc
    all_goals first
      | exact absurd (congrArg Prod.snd hc) (moveCommit_no_fserror _ _ _ _ _ _ _)
      | (simp only [Prod.mk.injEq] at hc
         first
          | exact hc.1.symm
          | exact absurd hc.2 (by simp))
  · intro fuel fs p fs' r e hc he
    subst he
    unfold deleteNode at hc
    dsimp only at hc
    repeat' split at hc
    all_goals simp only [Prod.mk.injEq] at hc
    all_goals first
      | exact hc.1.symm
      | exact absurd hc.2 (by simp)

/-- Witness for the atomicity theorem: `createFile` on a missing parent
fails with `NOT_FOUND` and provably leaves the state untouched. -/
theorem engine_atomic_on_fs_error_witness :
    createFile baseFS "/nope" "a.txt" "x" none none =
      (baseFS, Except.error (EngineErr.fsError
        ⟨"Parent directory not found: /nope", ErrorCode.NOT_FOUND⟩)) ∧
    (createFile baseFS "/nope" "a.txt" "x" none none).1 = baseFS :=
  ⟨rfl, engine_atomic_on_fs_error.1 baseFS "/nope" "a.txt" "x" none none baseFS
    (Except.error (EngineErr.fsError
      ⟨"Parent directory not found: /nope", ErrorCode.NOT_FOUND⟩))
    ⟨"Parent directory not found: /nope", ErrorCode.NOT_FOUND⟩ rfl rfl⟩

/-! ## C7 - `isSubPath` characterization -/

/-- Appending strings concatenates the data lists. -/
theorem stringDataAppend (a b : String) : (a ++ b).data = a.data ++ b.data := rfl

/-- The field `String.data` is injective. -/
theorem stringDataInj : ∀ {s t : String}, s.data = t.data → s = t := by
  intro s t h
  cases s
  cases t
  exact congrArg String.mk h

/-- The test `startsWithList a b` holds exactly when `b` is a list prefix of `a`. -/
theorem startsWithList_iff : ∀ a b : List Char, startsWithList a b = true ↔ b <+: a := by
  intro a b
  induction b generalizing a with
  | nil => simp [startsWithList, List.nil_prefix]
  | cons x xs ih =>
    cases a with
    | nil => simp [startsWithList]
    | cons y ys =>
      show (decide (y = x) && startsWithList ys xs) = true ↔ _
      rw [List.cons_prefix_cons, Bool.and_eq_true, decide_eq_true_iff, ih]
      constructor
      · rintro ⟨h1, h2⟩
        exact ⟨h1.symm, h2⟩
      · rintro ⟨h1, h2⟩
        exact ⟨h1.symm, h2⟩

/-- For every path whose normalization is not the root, `isSubPath p p`
is false (a string never starts with itself extended by the separator). -/
theorem isSubPath_self_of_ne_root (p : String) (h : normalizePath p ≠ "/") :
    isSubPath p p = false := by
  simp only [isSubPath]
  rw [if_neg h]
  rw [Bool.eq_false_iff]
  intro hc
  have hpre := (startsWithList_iff _ _).mp hc
  rw [stringDataAppend] at hpre
  have := hpre.length_le
  simp at this

/-- Token alignment: with separator-free `x` and `y`, `x ++ '/' :: u` is a
prefix of `y ++ '/' :: v` exactly when `x = y` and `u` is a prefix of `v`. -/
theorem sep_align (x : List Char) : ∀ (y u v : List Char),
    (∀ c ∈ x, isSepChar c = false) → (∀ c ∈ y, isSepChar c = false) →
    ((x ++ '/' :: u) <+: (y ++ '/' :: v) ↔ x = y ∧ u <+: v) := by
  induction x with
  | nil =>
    intro y u v _ hy
    cases y with
    | nil => simp [List.cons_prefix_cons]
    | cons b y' =>
      simp only [List.nil_append, List.cons_append, List.cons_prefix_cons]
      have hb : isSepChar b = false := hy b (by simp)
      have : ('/' : Char) ≠ b := by
        intro hcontra
        rw [← hcontra] at hb
        simp [isSepChar] at hb
      simp [this]
  | cons a x' ih =>
    intro y u v hx hy
    have ha : isSepChar a = false := hx a (by simp)
    cases y with
    | nil =>
      simp only [List.cons_append, List.nil_append, List.cons_prefix_cons]
      have : a ≠ '/' := by
        intro hcontra
        rw [hcontra] at ha
        simp [isSepChar] at ha
      simp [this]
    | cons b y' =>
      simp only [List.cons_append, List.cons_prefix_cons]
      rw [ih y' u v (fun c hc => hx c (by simp [hc])) (fun c hc => hy c (by simp [hc]))]
      constructor
      · rintro ⟨h1, h2, h3⟩
        exact ⟨by rw [h1, h2], h3⟩
      · rintro ⟨h1, h2⟩
        injection h1 with h1a h1b
        exact ⟨h1a, h1b, h2⟩

/-- Splitting consumes a separator-free run into the accumulator. -/
theorem sepSegsGo_nonsep_run (s : List Char) :
    ∀ (cur rest : List Char), (∀ c ∈ s, isSepChar c = false) →
    sepSegsGo cur (s ++ rest) = sepSegsGo (s.reverse ++ cur) rest := by
  induction s with
  | nil => intro cur rest _; simp
  | cons c s' ih =>
    intro cur rest hs
    have hc : isSepChar c = false := hs c (by simp)
    have step : sepSegsGo cur ((c :: s') ++ rest) = sepSegsGo (c :: cur) (s' ++ rest) := by
      simp [sepSegsGo, hc]
    rw [step, ih (c :: cur) rest (fun d hd => hs d (by simp [hd]))]
    simp

/-- Splitting undoes joining on clean segment lists. -/
theorem sepSegsGo_joinSegs (L : List (List Char))
    (hL : ∀ s ∈ L, s ≠ [] ∧ ∀ c ∈ s, isSepChar c = false) :
    sepSegsGo [] (joinSegs L) = L := by
  induction L with
  | nil => simp [joinSegs, sepSegsGo]
  | cons s L' ih =>
    obtain ⟨hne, hns⟩ := hL s (by simp)
    cases L' with
    | nil =>
      have hj : joinSegs [s] = s ++ [] := by simp [joinSegs]
      rw [hj, sepSegsGo_nonsep_run s [] [] hns]
      simp only [List.append_nil, sepSegsGo]
      rw [if_neg (by simpa using hne)]
      simp
    | cons s2 rest =>
      have hj : joinSegs (s :: s2 :: rest) = s ++ '/' :: joinSegs (s2 :: rest) := rfl
      rw [hj, sepSegsGo_nonsep_run s [] ('/' :: joinSegs (s2 :: rest)) hns]
      have h2 : sepSegsGo (s.reverse ++ []) ('/' :: joinSegs (s2 :: rest)) =
          s :: sepSegsGo [] (joinSegs (s2 :: rest)) := by
        simp [sepSegsGo, isSepChar, hne]
      rw [h2, ih (fun t ht => hL t (by simp [ht]))]

/-- The list `joinSegs P ++ ['/']` is a prefix of `joinSegs C` exactly when `P` is
a strict prefix of `C` (clean segments, `P` nonempty). -/
theorem joinSegs_strict_prefix_iff (P : List (List Char)) : ∀ C : List (List Char),
    (∀ s ∈ P, s ≠ [] ∧ ∀ c ∈ s, isSepChar c = false) →
    (∀ s ∈ C, s ≠ [] ∧ ∀ c ∈ s, isSepChar c = false) →
    P ≠ [] →
    ((joinSegs P ++ ['/'] <+: joinSegs C) ↔ (P <+: C ∧ P ≠ C)) := by
  induction P with
  | nil => intro C _ _ hne; exact absurd rfl hne
  | cons p P' ih =>
    intro C hP hC _
    obtain ⟨hpne, hpns⟩ := hP p (by simp)
    cases P' with
    | nil =>
      cases C with
      | nil =>
        constructor
        · intro hpre
          have := List.prefix_nil.mp hpre
          simp [joinSegs] at this
        · rintro ⟨hpre, _⟩
          have := List.prefix_nil.mp hpre
          simp at this
      | cons c C' =>
        obtain ⟨hcne, hcns⟩ := hC c (by simp)
        cases C' with
        | nil =>
          constructor
          · intro hpre
            exfalso
            have hmem : ('/' : Char) ∈ joinSegs [c] := hpre.subset (by simp [joinSegs])
            have := hcns '/' (by simpa [joinSegs] using hmem)
            simp [isSepChar] at this
          · rintro ⟨hpre, hne⟩
            exfalso
            rw [List.cons_prefix_cons] at hpre
            exact hne (by rw [hpre.1])
        | cons c2 C'' =>
          have hj : joinSegs [p] ++ ['/'] = p ++ '/' :: ([] : List Char) := by simp [joinSegs]
          rw [hj, show joinSegs (c :: c2 :: C'') = c ++ '/' :: joinSegs (c2 :: C'') from rfl,
            sep_align p c [] (joinSegs (c2 :: C'')) hpns hcns]
          constructor
          · rintro ⟨h1, _⟩
            subst h1
            refine ⟨List.cons_prefix_cons.mpr ⟨rfl, by simp⟩, ?_⟩
            intro hcontra
            injection hcontra with _ h2
            exact List.cons_ne_nil _ _ h2.symm
          · rintro ⟨h1, _⟩
            rw [List.cons_prefix_cons] at h1
            exact ⟨h1.1, List.nil_prefix⟩
    | cons p2 P'' =>
      cases C with
      | nil =>
        constructor
        · intro hpre
          have := List.prefix_nil.mp hpre
          simp [joinSegs] at this
        · rintro ⟨hpre, _⟩
          have := List.prefix_nil.mp hpre
          simp at this
      | cons c C' =>
        obtain ⟨hcne, hcns⟩ := hC c (by simp)
        cases C' with
        | nil =>
          constructor
          · intro hpre
            exfalso
            have hmem : ('/' : Char) ∈ joinSegs [c] :=
              hpre.subset (by
                show ('/' : Char) ∈ joinSegs (p :: p2 :: P'') ++ ['/']
                simp)
            have := hcns '/' (by simpa [joinSegs] using hmem)
            simp [isSepChar] at this
          · rintro ⟨hpre, _⟩
            exfalso
            have := hpre.length_le
            simp at this
        | cons c2 C'' =>
          have hj1 : joinSegs (p :: p2 :: P'') ++ ['/'] =
              p ++ '/' :: (joinSegs (p2 :: P'') ++ ['/']) := by
            show (p ++ '/' :: joinSegs (p2 :: P'')) ++ ['/'] = _
            simp
          rw [hj1, show joinSegs (c :: c2 :: C'') = c ++ '/' :: joinSegs (c2 :: C'') from rfl,
            sep_align p c _ _ hpns hcns,
            ih (c2 :: C'') (fun t ht => hP t (by simp [ht])) (fun t ht => hC t (by simp [ht]))
              (List.cons_ne_nil _ _)]
          constructor
          · rintro ⟨h1, h2, h3⟩
            subst h1
            refine ⟨List.cons_prefix_cons.mpr ⟨rfl, h2⟩, ?_⟩
            intro hcontra
            injection hcontra with _ h4
            exact h3 h4
          · rintro ⟨h1, h2⟩
            rw [List.cons_prefix_cons] at h1
            obtain ⟨h1a, h1b⟩ := h1
            subst h1a
            exact ⟨rfl, h1b, fun h4 => h2 (by rw [h4])⟩

/-- Modelled from the spec: a single path segment — nonempty and free of
separator characters. -/
def cleanSeg (s : String) : Prop := s ≠ "" ∧ ∀ c ∈ s.data, isSepChar c = false

/-- Modelled from the spec: the normalized absolute path with the given
segments (the root for `[]`). -/
def canonicalPath (segs : List String) : String :=
  String.mk ('/' :: joinSegs (segs.map String.data))

/-- Modelled from the spec: `child` is strictly nested under `parent`,
as segment lists — a proper prefix. -/
def strictlyNested (ps cs : List String) : Prop := ps <+: cs ∧ ps ≠ cs

/-- Clean string segments give clean character-list segments. -/
theorem cleanSeg_data {ss : List String} (h : ∀ s ∈ ss, cleanSeg s) :
    ∀ t ∈ ss.map String.data, t ≠ [] ∧ ∀ c ∈ t, isSepChar c = false := by
  intro t ht
  rw [List.mem_map] at ht
  obtain ⟨s, hs, rfl⟩ := ht
  obtain ⟨h1, h2⟩ := h s hs
  refine ⟨?_, h2⟩
  intro hdata
  exact h1 (stringDataInj hdata)

/-- Normalization is the identity on canonical absolute paths. -/
theorem normalizePath_canonical (ss : List String) (h : ∀ s ∈ ss, cleanSeg s) :
    normalizePath (canonicalPath ss) = canonicalPath ss := by
  have hne : canonicalPath ss ≠ "" := by
    intro hc
    have := congrArg String.data hc
    simp [canonicalPath] at this
  unfold normalizePath
  rw [if_neg hne]
  have hdata : (canonicalPath ss).data = '/' :: joinSegs (ss.map String.data) := rfl
  have hstart : jsStartsWith (canonicalPath ss) "/" = true := by
    simp [jsStartsWith, hdata, startsWithList]
  rw [if_pos hstart]
  have hsegs : sepSegs (canonicalPath ss).data = ss.map String.data := by
    rw [hdata]
    show sepSegsGo [] ('/' :: joinSegs (ss.map String.data)) = _
    have : sepSegsGo [] ('/' :: joinSegs (ss.map String.data)) =
        sepSegsGo [] (joinSegs (ss.map String.data)) := by
      simp [sepSegsGo, isSepChar]
    rw [this, sepSegsGo_joinSegs _ (cleanSeg_data h)]
  rw [hsegs]
  rfl

/-- Mapping `String.data` preserves and reflects list prefixes. -/
theorem mapData_prefix_iff (P : List String) : ∀ C : List String,
    (P.map String.data <+: C.map String.data ↔ P <+: C) := by
  induction P with
  | nil => intro C; simp [List.nil_prefix]
  | cons p P' ih =>
    intro C
    cases C with
    | nil =>
      simp only [List.map_nil, List.map_cons]
      constructor
      · intro h
        exact absurd (List.prefix_nil.mp h) (by simp)
      · intro h
        exact absurd (List.prefix_nil.mp h) (by simp)
    | cons c C' =>
      simp only [List.map_cons, List.cons_prefix_cons]
      rw [ih C']
      constructor
      · rintro ⟨h1, h2⟩
        exact ⟨stringDataInj h1, h2⟩
      · rintro ⟨h1, h2⟩
        exact ⟨by rw [h1], h2⟩

/-- Mapping `String.data` preserves and reflects list equality. -/
theorem mapData_eq_iff (P C : List String) :
    P.map String.data = C.map String.data ↔ P = C :=
  ⟨fun h => List.map_injective_iff.mpr (fun _ _ hab => stringDataInj hab) h,
    fun h => by rw [h]⟩

/-- C7 amended: `isSubPath(parent, child)` is true iff `child` is strictly
nested under `parent`, **except** at the root: for every path whose
normalization is not the root separator, `isSubPath(p, p)` is false, but
`isSubPath("/", "/")` is true (the root-parent branch only checks that the
child starts with the separator).  On canonical absolute paths the function
returns true exactly when the parent is the root or the child's segment
list strictly extends the parent's. -/
theorem isSubPath_characterization :
    (∀ p : String, normalizePath p ≠ "/" → isSubPath p p = false) ∧
    isSubPath "/" "/" = true ∧
    (∀ ps cs : List String, (∀ s ∈ ps, cleanSeg s) → (∀ s ∈ cs, cleanSeg s) →
      (isSubPath (canonicalPath ps) (canonicalPath cs) = true ↔
        (ps = [] ∨ strictlyNested ps cs))) := by
  refine ⟨isSubPath_self_of_ne_root, rfl, ?_⟩
  intro ps cs hp hc
  unfold isSubPath
  rw [normalizePath_canonical ps hp, normalizePath_canonical cs hc]
  cases ps with
  | nil =>
    have hroot : canonicalPath [] = "/" := by decide
    rw [hroot, if_pos rfl]
    have hstart : jsStartsWith (canonicalPath cs) "/" = true := by
      show startsWithList ('/' :: joinSegs (cs.map String.data)) ['/'] = true
      simp [startsWithList]
    simp [hstart]
  | cons q qs =>
    obtain ⟨hqne, hqns⟩ := hp q (by simp)
    have hqdne : q.data ≠ [] := fun hd => hqne (stringDataInj hd)
    have hne2 : canonicalPath (q :: qs) ≠ "/" := by
      intro hcontra
      have hd := congrArg String.data hcontra
      have : ('/' : Char) :: joinSegs ((q :: qs).map String.data) = ['/'] := hd
      have hj : joinSegs ((q :: qs).map String.data) = [] := by
        injection this
      cases qs with
      | nil => exact hqdne (by simpa [joinSegs] using hj)
      | cons q2 qs' =>
        have : joinSegs ((q :: q2 :: qs').map String.data) =
            q.data ++ '/' :: joinSegs ((q2 :: qs').map String.data) := rfl
        rw [this] at hj
        simp at hj
    rw [if_neg hne2]
    show startsWithList (canonicalPath cs).data ((canonicalPath (q :: qs) ++ "/").data) =
        true ↔ _
    rw [startsWithList_iff]
    have hL : (canonicalPath (q :: qs) ++ "/").data =
        ('/' :: joinSegs ((q :: qs).map String.data)) ++ ['/'] := rfl
    have hR : (canonicalPath cs).data = '/' :: joinSegs (cs.map String.data) := rfl
    rw [hL, hR, List.cons_append, List.cons_prefix_cons,
      joinSegs_strict_prefix_iff _ _ (cleanSeg_data hp) (cleanSeg_data hc) (by simp),
      mapData_prefix_iff]
    constructor
    · rintro ⟨-, h2, h3⟩
      exact Or.inr ⟨h2, fun h4 => h3 (by rw [h4])⟩
    · rintro (h | ⟨h2, h3⟩)
      · exact absurd h (by simp)
      · exact ⟨rfl, h2, fun h4 => h3 ((mapData_eq_iff _ _).mp h4)⟩

/-- C7 counterexample: `isSubPath("/", "/")` returns true although the
claim says `isSubPath(p, p)` is false for every path including the root. -/
theorem isSubPath_root_self_true : isSubPath "/" "/" = true := rfl

/-- Witness for the amended C7 theorem at `p = "/a"` and at the canonical
segment lists `["a"]`, `["a", "b"]`. -/
theorem isSubPath_characterization_witness :
    normalizePath "/a" ≠ "/" ∧ isSubPath "/a" "/a" = false ∧
    (∀ s ∈ ["a"], cleanSeg s) ∧ (∀ s ∈ ["a", "b"], cleanSeg s) ∧
    (isSubPath (canonicalPath ["a"]) (canonicalPath ["a", "b"]) = true ↔
      (["a"] = [] ∨ strictlyNested ["a"] ["a", "b"])) := by
  have h1 : ∀ s ∈ ["a"], cleanSeg s := by
    intro s hs
    simp only [List.mem_singleton] at hs
    subst hs
    exact ⟨by decide, by decide⟩
  have h2 : ∀ s ∈ ["a", "b"], cleanSeg s := by
    intro s hs
    simp only [List.mem_cons, List.mem_singleton] at hs
    rcases hs with rfl | rfl | h
    · exact ⟨by decide, by decide⟩
    · exact ⟨by decide, by decide⟩
    · simp at h
  exact ⟨by decide, isSubPath_characterization.1 "/a" (by decide), h1, h2,
    isSubPath_characterization.2.2 ["a"] ["a", "b"] h1 h2⟩

/-! ## C5 - the undo/redo law -/

/-- Structural equality of nodes as the claim lists it: same id, kind,
name, path, parentId, content (for files) and children (for
directories); timestamps are not part of the structure. -/
def nodeStructEq (a b : FSNode) : Prop :=
  a.id = b.id ∧ a.type = b.type ∧ a.name = b.name ∧ a.path = b.path ∧
  a.parentId = b.parentId ∧
  (a.type = NodeType.file → a.content = b.content) ∧
  (a.type = NodeType.directory → a.children = b.children)

/-- Lift `nodeStructEq` to optional lookup results. -/
def optNodeEq : Option FSNode → Option FSNode → Prop
  | none, none => True
  | some a, some b => nodeStructEq a b
  | _, _ => False

/-- Structural equality of node maps: pointwise by id. -/
def structEq (m1 m2 : NodeMap) : Prop := ∀ k, optNodeEq (mapGet m1 k) (mapGet m2 k)

theorem nodeStructEq_refl (a : FSNode) : nodeStructEq a a :=
  ⟨rfl, rfl, rfl, rfl, rfl, fun _ => rfl, fun _ => rfl⟩

theorem nodeStructEq_symm {a b : FSNode} (h : nodeStructEq a b) : nodeStructEq b a := by
  obtain ⟨h1, h2, h3, h4, h5, h6, h7⟩ := h
  exact ⟨h1.symm, h2.symm, h3.symm, h4.symm, h5.symm,
    fun hf => (h6 (h2 ▸ hf)).symm, fun hd => (h7 (h2 ▸ hd)).symm⟩

theorem nodeStructEq_trans {a b c : FSNode} (hab : nodeStructEq a b) (hbc : nodeStructEq b c) :
    nodeStructEq a c := by
  obtain ⟨h1, h2, h3, h4, h5, h6, h7⟩ := hab
  obtain ⟨g1, g2, g3, g4, g5, g6, g7⟩ := hbc
  exact ⟨h1.trans g1, h2.trans g2, h3.trans g3, h4.trans g4, h5.trans g5,
    fun hf => (h6 hf).trans (g6 (h2 ▸ hf)), fun hd => (h7 hd).trans (g7 (h2 ▸ hd))⟩

theorem structEq_refl (m : NodeMap) : structEq m m := by
  intro k
  cases mapGet m k with
  | none => trivial
  | some a => exact nodeStructEq_refl a

theorem structEq_symm {m1 m2 : NodeMap} (h : structEq m1 m2) : structEq m2 m1 := by
  intro k
  have hk := h k
  cases h1 : mapGet m1 k <;> cases h2 : mapGet m2 k <;> rw [h1, h2] at hk
  · trivial
  · exact hk.elim
  · exact hk.elim
  · exact nodeStructEq_symm hk

theorem structEq_trans {m1 m2 m3 : NodeMap} (h12 : structEq m1 m2) (h23 : structEq m2 m3) :
    structEq m1 m3 := by
  intro k
  have hk12 := h12 k
  have hk23 := h23 k
  cases h1 : mapGet m1 k <;> cases h2 : mapGet m2 k <;> cases h3 : mapGet m3 k <;>
    rw [h1, h2] at hk12 <;> rw [h2, h3] at hk23
  · trivial
  · exact hk23.elim
  · exact hk12.elim
  · exact hk12.elim
  · exact hk12.elim
  · exact hk12.elim
  · exact hk23.elim
  · exact nodeStructEq_trans hk12 hk23

/-- Lookup in a cloned map clones the looked-up node. -/
theorem mapGet_cloneNodes (m : NodeMap) (k : String) :
    mapGet (cloneNodes m) k = (mapGet m k).map cloneNode := by
  induction m with
  | nil => simp [cloneNodes, mapGet]
  | cons e rest ih =>
    by_cases h : e.1 = k
    · simp [cloneNodes, mapGet, h]
    · simpa [cloneNodes, mapGet, h] using ih

/-- Cloning preserves the structure of every node. -/
theorem nodeStructEq_cloneNode (n : FSNode) : nodeStructEq n (cloneNode n) := by
  refine ⟨rfl, rfl, rfl, rfl, rfl, fun _ => rfl, fun hd => ?_⟩
  simp [cloneNode, hd]

theorem structEq_cloneNodes (m : NodeMap) : structEq m (cloneNodes m) := by
  intro k
  rw [mapGet_cloneNodes]
  cases mapGet m k with
  | none => trivial
  | some a => exact nodeStructEq_cloneNode a

/-- A run of record-wrapped mutations whose silent discards are sound:
whenever `generateDiff` of the two snapshots around a mutation (at the
manager state it actually runs in) is empty — so `recordChange` silently
discards it — that mutation was a structural no-op there.  The amended
undo/redo law holds exactly under this proviso; `undo_redo_law_counterexample`
shows a record-wrapped engine sequence violating it (and the law): a
callback that moves a node away and back nets an empty diff yet permutes
the parent's children list. -/
def RunFaithful : HM → List (String × (FS → FS) × (FS → FS)) → Prop
  | _, [] => True
  | hm, p :: rest =>
    (generateDiff (cloneNodes hm.fs.project.nodes)
        (cloneNodes ((p.2.2 (p.2.1 hm.fs)).project.nodes)) = [] →
      structEq hm.fs.project.nodes ((p.2.2 (p.2.1 hm.fs)).project.nodes)) ∧
    RunFaithful (recordChange hm p.1 p.2.1 p.2.2) rest

/-- Run a sequence of `recordChange` calls (description, `beforeAction`,
`action`) against a manager. -/
def applyRecords (hm : HM) : List (String × (FS → FS) × (FS → FS)) → HM
  | [] => hm
  | p :: rest => applyRecords (recordChange hm p.1 p.2.1 p.2.2) rest

/-- Invariant of a manager reached from a fresh one by records only: the
cursor sits on the last entry and the live node map is structurally equal
to that entry's after-snapshot. -/
def HMInv (hm : HM) : Prop :=
  hm.currentIndex = (hm.history.length : Int) - 1 ∧
  ∀ e, hm.history.get? (hm.history.length - 1) = some e →
    structEq hm.fs.project.nodes e.afterSnapshot

/-- Recording preserves the invariant (including redo-branch
truncation and oldest-entry eviction), provided that if this mutation's
diff is empty it was a structural no-op. -/
theorem recordChange_inv (hm : HM) (d : String) (ba a : FS → FS)
    (hinv : HMInv hm)
    (hgood : generateDiff (cloneNodes hm.fs.project.nodes)
        (cloneNodes ((a (ba hm.fs)).project.nodes)) = [] →
      structEq hm.fs.project.nodes ((a (ba hm.fs)).project.nodes)) :
    HMInv (recordChange hm d ba a) := by
  obtain ⟨hci, hlast⟩ := hinv
  unfold recordChange
  dsimp only
  by_cases hdiff : generateDiff (cloneNodes hm.fs.project.nodes)
      (cloneNodes ((a (ba hm.fs)).project.nodes)) = []
  · rw [if_pos hdiff]
    refine ⟨hci, ?_⟩
    intro e he
    exact structEq_trans (structEq_symm (hgood hdiff)) (hlast e he)
  · rw [if_neg hdiff]
    have htoNat : (hm.currentIndex + 1).toNat = hm.history.length := by omega
    have htake : hm.history.take (hm.currentIndex + 1).toNat = hm.history := by
      rw [htoNat, List.take_length]
    rw [htake]
    by_cases hlen : (hm.history ++
        [(⟨d, generateDiff (cloneNodes hm.fs.project.nodes)
            (cloneNodes ((a (ba hm.fs)).project.nodes)),
          cloneNodes hm.fs.project.nodes,
          cloneNodes ((a (ba hm.fs)).project.nodes)⟩ : HistoryEntry)]).length > maxHistorySize
    · rw [if_pos hlen]
      constructor
      · dsimp only
        simp only [List.length_drop, List.length_append, List.length_cons,
          List.length_nil]
        omega
      · dsimp only
        intro e he
        simp only [List.length_drop, List.length_append, List.length_cons,
          List.length_nil] at he
        have hlen1 : hm.history.length ≥ 1 := by
          simp only [List.length_append, List.length_cons, List.length_nil,
            maxHistorySize] at hlen
          omega
        rw [List.get?_drop] at he
        have hidx : 1 + (hm.history.length + 1 - 1 - 1) = hm.history.length := by omega
        rw [hidx, List.get?_concat_length] at he
        cases he
        exact structEq_cloneNodes _
    · rw [if_neg hlen]
      constructor
      · dsimp only
        simp only [List.length_append, List.length_cons, List.length_nil]
        omega
      · dsimp only
        intro e he
        simp only [List.length_append, List.length_cons, List.length_nil] at he
        have hidx : hm.history.length + 1 - 1 = hm.history.length := by omega
        rw [hidx, List.get?_concat_length] at he
        cases he
        exact structEq_cloneNodes _

theorem applyRecords_inv (actions : List (String × (FS → FS) × (FS → FS))) :
    ∀ (hm : HM), HMInv hm → RunFaithful hm actions →
    HMInv (applyRecords hm actions) := by
  induction actions with
  | nil => intro hm hinv _; exact hinv
  | cons p rest ih =>
    intro hm hinv hrf
    exact ih _ (recordChange_inv hm p.1 p.2.1 p.2.2 hinv hrf.1) hrf.2

/-- Running `undo` until it returns false from a cursor at `j - 1` performs
exactly `j` successful undos, ends at cursor `-1` with the log intact, and
leaves the state untouched when `j = 0`. -/
theorem undoAll_run : ∀ (j fuel : Nat) (hm : HM),
    hm.currentIndex = (j : Int) - 1 → j ≤ hm.history.length → j < fuel →
    ∃ fsU, undoAll fuel hm = (⟨hm.history, -1, fsU⟩, j) ∧ (j = 0 → fsU = hm.fs) := by
  intro j
  induction j with
  | zero =>
    intro fuel hm hci hle hfuel
    obtain ⟨hist, ci, fs⟩ := hm
    simp only at hci hle ⊢
    cases fuel with
    | zero => omega
    | succ f =>
      have hci' : ci = -1 := by omega
      subst hci'
      have hu : undo ⟨hist, -1, fs⟩ = (⟨hist, -1, fs⟩, false) := by
        unfold undo
        rw [if_pos (by norm_num)]
      refine ⟨fs, ?_, fun _ => rfl⟩
      simp [undoAll, hu]
  | succ jj ih =>
    intro fuel hm hci hle hfuel
    obtain ⟨hist, ci, fs⟩ := hm
    simp only at hci hle ⊢
    cases fuel with
    | zero => omega
    | succ f =>
      have hok : ¬ (ci < 0) := by omega
      have hjj : ci.toNat = jj := by omega
      have hlt : jj < hist.length := by omega
      have he := List.get?_eq_get hlt
      have hu : undo ⟨hist, ci, fs⟩ =
          (⟨hist, ci - 1, setNodesTouch fs (cloneNodes (hist.get ⟨jj, hlt⟩).beforeSnapshot)⟩,
            true) := by
        unfold undo
        rw [if_neg hok]
        simp only [hjj, he]
      obtain ⟨fsU, hrun, -⟩ := ih f
        ⟨hist, ci - 1, setNodesTouch fs (cloneNodes (hist.get ⟨jj, hlt⟩).beforeSnapshot)⟩
        (by dsimp only; omega) (by dsimp only; omega) (by omega)
      refine ⟨fsU, ?_, by omega⟩
      show undoAll (f + 1) ⟨hist, ci, fs⟩ = _
      simp only [undoAll, hu, hrun]

/-- Redoing `n` times from cursor `j - 1` with `j + n` entries lands on the
last entry's after-snapshot (freshly cloned). -/
theorem redoTimes_run : ∀ (n : Nat), 0 < n → ∀ (j : Nat) (hm : HM),
    hm.currentIndex = (j : Int) - 1 → j + n = hm.history.length →
    ∃ e, hm.history.get? (hm.history.length - 1) = some e ∧
      (redoTimes n hm).fs.project.nodes = cloneNodes e.afterSnapshot := by
  intro n
  induction n with
  | zero => intro h; omega
  | succ m ih =>
    intro _ j hm hci hlen
    obtain ⟨hist, ci, fs⟩ := hm
    simp only at hci hlen ⊢
    have hcond : ¬ (ci ≥ (hist.length : Int) - 1) := by omega
    have htn : (ci + 1).toNat = j := by omega
    have hjlt : j < hist.length := by omega
    have he := List.get?_eq_get hjlt
    have hr : redo ⟨hist, ci, fs⟩ =
        (⟨hist, ci + 1, setNodesTouch fs (cloneNodes (hist.get ⟨j, hjlt⟩).afterSnapshot)⟩,
          true) := by
      unfold redo
      rw [if_neg hcond]
      simp only [htn, he]
    cases m with
    | zero =>
      refine ⟨hist.get ⟨j, hjlt⟩, ?_, ?_⟩
      · have hidx : hist.length - 1 = j := by omega
        rw [hidx, he]
      · show (redoTimes 0 (redo ⟨hist, ci, fs⟩).1).fs.project.nodes = _
        rw [hr]
        simp [redoTimes, setNodesTouch]
    | succ mm =>
      obtain ⟨e2, he2, hfinal⟩ := ih (by omega) (j + 1)
        ⟨hist, ci + 1, setNodesTouch fs (cloneNodes (hist.get ⟨j, hjlt⟩).afterSnapshot)⟩
        (by dsimp only; omega) (by dsimp only; omega)
      refine ⟨e2, by simpa using he2, ?_⟩
      show (redoTimes (mm + 1) (redo ⟨hist, ci, fs⟩).1).fs.project.nodes = _
      rw [hr]
      exact hfinal

/-- C5 amended: for any sequence of record-wrapped mutations applied to a
fresh manager, provided no mutation is silently discarded while having
changed the structure (`RunFaithful`: an empty surrounding diff implies a
structural no-op at that state), calling `undo()` until it returns false
(the pair `(hmU, k)` being the final state and the number of undos that
returned true) and then calling `redo()` that same number of times
restores the node map to a state structurally equal — same ids, names,
paths, parentIds, contents and children — to the state before the undo
pass; the next `undo` after the pass indeed reports false.  Without the
proviso the law is false: see `undo_redo_law_counterexample`. -/
theorem undo_redo_law (fs0 : FS) (actions : List (String × (FS → FS) × (FS → FS)))
    (hact : RunFaithful ⟨[], -1, fs0⟩ actions) :
    ∀ (hmU : HM) (k : Nat),
      undoAll ((applyRecords ⟨[], -1, fs0⟩ actions).history.length + 1)
        (applyRecords ⟨[], -1, fs0⟩ actions) = (hmU, k) →
      (undo hmU).2 = false ∧
      structEq ((redoTimes k hmU).fs.project.nodes)
        (applyRecords ⟨[], -1, fs0⟩ actions).fs.project.nodes := by
  intro hmU k heq
  have hinv : HMInv (applyRecords ⟨[], -1, fs0⟩ actions) := by
    refine applyRecords_inv actions ⟨[], -1, fs0⟩ ⟨by norm_num, ?_⟩ hact
    intro e he
    simp [List.get?] at he
  obtain ⟨hci, hlast⟩ := hinv
  obtain ⟨fsU, hrun, hzero⟩ :=
    undoAll_run (applyRecords ⟨[], -1, fs0⟩ actions).history.length
      ((applyRecords ⟨[], -1, fs0⟩ actions).history.length + 1)
      (applyRecords ⟨[], -1, fs0⟩ actions) hci (le_refl _) (by omega)
  rw [heq] at hrun
  have hmUeq : hmU = ⟨(applyRecords ⟨[], -1, fs0⟩ actions).history, -1, fsU⟩ :=
    congrArg Prod.fst hrun
  have hk : k = (applyRecords ⟨[], -1, fs0⟩ actions).history.length :=
    congrArg Prod.snd hrun
  subst hmUeq hk
  constructor
  · unfold undo
    rw [if_pos (by norm_num)]
  · by_cases hL : (applyRecords ⟨[], -1, fs0⟩ actions).history.length = 0
    · rw [hL, hzero hL]
      exact structEq_refl _
    · have hpos : 0 < (applyRecords ⟨[], -1, fs0⟩ actions).history.length :=
        Nat.pos_of_ne_zero hL
      obtain ⟨e, he, hfinal⟩ := redoTimes_run _ hpos 0
        ⟨(applyRecords ⟨[], -1, fs0⟩ actions).history, -1, fsU⟩
        (by dsimp only; norm_num) (by dsimp only; omega)
      rw [hfinal]
      exact structEq_symm (structEq_trans (hlast e (by simpa using he))
        (structEq_cloneNodes _))

/-- A one-record run that creates the directory `/a` (nonempty diff, so
nothing is silently discarded and `RunFaithful` holds by computation). -/
def demoActions : List (String × (FS → FS) × (FS → FS)) :=
  [("create a", fun fs => fs, fun fs => (createDirectory fs "/" "a").1)]

/-- A two-record run: the first record creates `/a` and `/d`; the second
record's callback moves `/a` into `/d` and back (`moveNode("/a", "/d")`
then `moveNode("/d/a", "/")`).  The second record's diff is empty — all
ids, paths and contents are restored — so `recordChange` silently discards
it, yet the root's children list ends up permuted. -/
def shuffleActions : List (String × (FS → FS) × (FS → FS)) :=
  [("setup", fun fs => fs,
      fun fs => (createDirectory (createDirectory fs "/" "a").1 "/" "d").1),
   ("shuffle", fun fs => fs,
      fun fs => (moveNode 10 (moveNode 10 fs "/a" "/d").1 "/d/a" "/").1)]

/-- Witness for the amended undo/redo law on a real one-record run: the
undo pass performs exactly one successful undo, the next undo reports
false, and one redo restores the node map. -/
theorem undo_redo_law_witness :
    RunFaithful ⟨[], -1, baseFS⟩ demoActions ∧
    (undoAll ((applyRecords ⟨[], -1, baseFS⟩ demoActions).history.length + 1)
        (applyRecords ⟨[], -1, baseFS⟩ demoActions)).2 = 1 ∧
    ((undo (undoAll ((applyRecords ⟨[], -1, baseFS⟩ demoActions).history.length + 1)
        (applyRecords ⟨[], -1, baseFS⟩ demoActions)).1).2 = false ∧
      structEq
        ((redoTimes
            (undoAll ((applyRecords ⟨[], -1, baseFS⟩ demoActions).history.length + 1)
              (applyRecords ⟨[], -1, baseFS⟩ demoActions)).2
            (undoAll ((applyRecords ⟨[], -1, baseFS⟩ demoActions).history.length + 1)
              (applyRecords ⟨[], -1, baseFS⟩ demoActions)).1).fs.project.nodes)
        (applyRecords ⟨[], -1, baseFS⟩ demoActions).fs.project.nodes) := by
  have hrf : RunFaithful ⟨[], -1, baseFS⟩ demoActions := by
    refine ⟨?_, trivial⟩
    intro h
    exact absurd h (by decide)
  exact ⟨hrf, rfl, undo_redo_law baseFS demoActions hrf _ _ rfl⟩

/-- C5 counterexample: a record-wrapped Operation-Engine sequence on which
the unconditional law fails.  After `shuffleActions`, undo-until-false
performs one successful undo; redoing once then yields a root whose
children list is `["id-0", "id-1"]` while the state before the undo pass
had `["id-1", "id-0"]` — the silently discarded move-away-and-back record
permuted it — so the restored map is not structurally equal (the claim's
listed fields include `children`). -/
theorem undo_redo_law_counterexample :
    (undoAll ((applyRecords ⟨[], -1, baseFS⟩ shuffleActions).history.length + 1)
        (applyRecords ⟨[], -1, baseFS⟩ shuffleActions)).2 = 1 ∧
    ¬ structEq
        ((redoTimes
            (undoAll ((applyRecords ⟨[], -1, baseFS⟩ shuffleActions).history.length + 1)
              (applyRecords ⟨[], -1, baseFS⟩ shuffleActions)).2
            (undoAll ((applyRecords ⟨[], -1, baseFS⟩ shuffleActions).history.length + 1)
              (applyRecords ⟨[], -1, baseFS⟩ shuffleActions)).1).fs.project.nodes)
        (applyRecords ⟨[], -1, baseFS⟩ shuffleActions).fs.project.nodes := by
  refine ⟨rfl, ?_⟩
  intro h
  have hk := h "root"
  rw [show mapGet
        ((redoTimes
            (undoAll ((applyRecords ⟨[], -1, baseFS⟩ shuffleActions).history.length + 1)
              (applyRecords ⟨[], -1, baseFS⟩ shuffleActions)).2
            (undoAll ((applyRecords ⟨[], -1, baseFS⟩ shuffleActions).history.length + 1)
              (applyRecords ⟨[], -1, baseFS⟩ shuffleActions)).1).fs.project.nodes) "root" =
      some ⟨"root", NodeType.directory, "", "/", none, "", 0, none, none,
        ["id-0", "id-1"], 0, 7⟩ from rfl,
    show mapGet (applyRecords ⟨[], -1, baseFS⟩ shuffleActions).fs.project.nodes "root" =
      some ⟨"root", NodeType.directory, "", "/", none, "", 0, none, none,
        ["id-1", "id-0"], 0, 7⟩ from rfl] at hk
  obtain ⟨-, -, -, -, -, -, h7⟩ := hk
  exact absurd (h7 rfl) (by decide)

